import Mathlib

/-!
# Verification of `mediaclassifier.py`

A shallow embedding of the media classifier (`src/mediaclassifier/mediaclassifier.py`)
together with proofs about its video-sorting, tree-walking, metadata-export and
metadata-overwrite logic.

Modelling conventions:
* Filesystem paths are lists of path components, relative to the configured
  root directory (`self.directory`); `os.path.join` is list append.
* Python values produced by `ast.literal_eval` are modelled by the inductive
  type `PyVal`.  Floats are kept as their literal text, since the program never
  computes with them.  Python `bool` is a separate constructor, but it counts
  as an `int` for `isinstance` checks, exactly as in CPython.
* Machine-level concerns (encodings, inode identity) are out of scope; file
  contents are abstracted as opaque `Nat` identifiers so that an overwriting
  rename is observable.
-/

/-- Model of the values `ast.literal_eval` can return (the subset relevant to
this program; see `literal_eval` below for the modelled grammar). -/
inductive PyVal where
  | str (s : String)
  | int (n : Int)
  | float (raw : String)
  | bool (b : Bool)
  | pynone
  | list (xs : List PyVal)
  | tuple (xs : List PyVal)
  | dict (kvs : List (PyVal × PyVal))
  | pyset (xs : List PyVal)
deriving Repr

/-- ASCII whitespace skipped by the literal parser. -/
def isPySpace (c : Char) : Bool :=
  c == ' ' || c == '\t' || c == '\n' || c == '\r'

/-- Drop leading whitespace. -/
def skipSpaces : List Char → List Char
  | c :: cs => if isPySpace c then skipSpaces cs else c :: cs
  | [] => []

/-- Scan a quoted string body up to the closing quote `q` (escape sequences are
outside the modelled grammar). Returns the body and the rest of the input. -/
def scanStr (q : Char) : List Char → Option (List Char × List Char)
  | [] => none
  | c :: cs =>
    if c == q then some ([], cs)
    else (scanStr q cs).map (fun p => (c :: p.1, p.2))

/-- Digits of a decimal numeral folded into a natural number. -/
def digitsToNat (ds : List Char) : Nat :=
  ds.foldl (fun n c => 10 * n + (c.toNat - 48)) 0

/-- Scan a numeral after an optional sign: `digits`, `digits.digits`, `.digits`
or `digits.` (exponents, underscores in numerals and complex suffixes are
outside the modelled grammar and fail, falling back to the raw cell text). -/
def scanNum (neg : Bool) (cs : List Char) : Option (PyVal × List Char) :=
  let ip := cs.takeWhile Char.isDigit
  let r1 := cs.dropWhile Char.isDigit
  match r1 with
  | '.' :: r2 =>
    let fp := r2.takeWhile Char.isDigit
    let r3 := r2.dropWhile Char.isDigit
    if ip.isEmpty && fp.isEmpty then none
    else
      let sign := if neg then "-" else ""
      some (.float (sign ++ String.mk ip ++ "." ++ String.mk fp), r3)
  | _ =>
    if ip.isEmpty then none
    -- Python rejects integer literals with a leading zero (other than 0 itself)
    else if ip.length > 1 && ip.headD '0' == '0' then none
    else
      let n : Int := Int.ofNat (digitsToNat ip)
      some (.int (if neg then -n else n), r1)

/-- `True`/`False`/`None` keyword heads. -/
def scanKeyword (cs : List Char) : Option (PyVal × List Char) :=
  if ['T','r','u','e'].isPrefixOf cs then some (.bool true, cs.drop 4)
  else if ['F','a','l','s','e'].isPrefixOf cs then some (.bool false, cs.drop 5)
  else if ['N','o','n','e'].isPrefixOf cs then some (.pynone, cs.drop 4)
  else none

mutual

/-- Fuel-indexed recursive-descent parser modelling `ast.literal_eval` on the
grammar this program can meet: quoted strings (no escapes), signed decimal
integers and simple floats, `True`/`False`/`None`, and (nested) lists, tuples,
dicts and sets.  `literal_eval` below supplies ample fuel, so fuel exhaustion
never occurs on the inputs of any theorem. -/
def parsePyVal : Nat → List Char → Option (PyVal × List Char)
  | 0, _ => none
  | fuel + 1, cs =>
    match skipSpaces cs with
    | [] => none
    | c :: rest =>
      if c == '\'' || c == '"' then
        (scanStr c rest).map (fun p => (.str (String.mk p.1), p.2))
      else if c == '-' then scanNum true rest
      else if c == '+' then scanNum false rest
      else if c.isDigit || c == '.' then scanNum false (c :: rest)
      else if c == '[' then
        match skipSpaces rest with
        | ']' :: r2 => some (.list [], r2)
        | r2 => (parseItems fuel ']' r2).map (fun p => (.list p.1, p.2))
      else if c == '(' then
        match skipSpaces rest with
        | ')' :: r2 => some (.tuple [], r2)
        | r2 =>
          match parsePyVal fuel r2 with
          | none => none
          | some (v, r3) =>
            match skipSpaces r3 with
            | ')' :: r4 => some (v, r4)   -- parenthesised expression, not a tuple
            | ',' :: r4 =>
              match skipSpaces r4 with
              | ')' :: r5 => some (.tuple [v], r5)
              | r5 => (parseItems fuel ')' r5).map (fun p => (.tuple (v :: p.1), p.2))
            | _ => none
      else if c == '{' then
        match skipSpaces rest with
        | '}' :: r2 => some (.dict [], r2)
        | r2 =>
          match parsePyVal fuel r2 with
          | none => none
          | some (v, r3) =>
            match skipSpaces r3 with
            | ':' :: r4 =>
              match parsePyVal fuel r4 with
              | none => none
              | some (w, r5) =>
                match skipSpaces r5 with
                | '}' :: r6 => some (.dict [(v, w)], r6)
                | ',' :: r6 =>
                  (parsePairs fuel r6).map (fun p => (.dict ((v, w) :: p.1), p.2))
                | _ => none
            | '}' :: r4 => some (.pyset [v], r4)
            | ',' :: r4 => (parseItems fuel '}' r4).map (fun p => (.pyset (v :: p.1), p.2))
            | _ => none
      else scanKeyword (c :: rest)

/-- Comma-separated values up to `close`; a trailing comma is allowed. -/
def parseItems : Nat → Char → List Char → Option (List PyVal × List Char)
  | 0, _, _ => none
  | fuel + 1, close, cs =>
    match skipSpaces cs with
    | c :: r0 =>
      if c == close then some ([], r0)
      else
        match parsePyVal fuel (c :: r0) with
        | none => none
        | some (v, r1) =>
          match skipSpaces r1 with
          | c2 :: r2 =>
            if c2 == close then some ([v], r2)
            else if c2 == ',' then
              (parseItems fuel close r2).map (fun p => (v :: p.1, p.2))
            else none
          | [] => none
    | [] => none

/-- Comma-separated `key : value` pairs up to `}`; a trailing comma is allowed. -/
def parsePairs : Nat → List Char → Option (List (PyVal × PyVal) × List Char)
  | 0, _ => none
  | fuel + 1, cs =>
    match skipSpaces cs with
    | c :: r0 =>
      if c == '}' then some ([], r0)
      else
        match parsePyVal fuel (c :: r0) with
        | none => none
        | some (k, r1) =>
          match skipSpaces r1 with
          | ':' :: r2 =>
            match parsePyVal fuel r2 with
            | none => none
            | some (v, r3) =>
              match skipSpaces r3 with
              | c4 :: r4 =>
                if c4 == '}' then some ([(k, v)], r4)
                else if c4 == ',' then
                  (parsePairs fuel r4).map (fun p => ((k, v) :: p.1, p.2))
                else none
              | [] => none
          | _ => none
    | [] => none

end

/-- Model of `ast.literal_eval` applied to a CSV cell (the only caller in the
source): parse one literal and require only whitespace to remain.  `none`
models the raised exception on any unparseable text. -/
def literal_eval (s : String) : Option PyVal :=
  match parsePyVal (2 * s.length + 4) s.data with
  | some (v, rest) => if skipSpaces rest = [] then some v else none
  | none => none

/-- Per-cell value coercion of `overwrite_music_metadata_from_csv`
(`mediaclassifier.py` lines 190-198): `some v` means the source executes
`metadata[k] = v`; `none` means the key is left unset.  Python `bool` passes
`isinstance(parsed, (str, int, float))` because `bool` subclasses `int`. -/
def coerceCell (v : String) : Option PyVal :=
  match literal_eval v with
  | some p =>
    match p with
    | .list (x :: _) => some x
    | .str s => some (.str s)
    | .int n => some (.int n)
    | .float r => some (.float r)
    | .bool b => some (.bool b)
    | _ => none
  | none => some (.str v)

/-! ## Metadata overwrite (`overwrite_music_metadata_from_csv`) -/

/-- `d[k] = v` on a Python dict modelled as an insertion-ordered association
list: replace in place when the key is present, append otherwise. -/
def dictSet (d : List (String × PyVal)) (k : String) (v : PyVal) :
    List (String × PyVal) :=
  if d.any (fun p => p.1 == k) then
    d.map (fun p => if p.1 == k then (k, v) else p)
  else d ++ [(k, v)]

/-- The `metadata` dict built from one CSV row (`mediaclassifier.py` lines
185-198): every non-`file`, non-empty cell contributes through `coerceCell`. -/
def buildMetadata (row : List (String × String)) : List (String × PyVal) :=
  row.foldl
    (fun acc kv =>
      if kv.1 == "file" || kv.2 == "" then acc
      else
        match coerceCell kv.2 with
        | some v => dictSet acc kv.1 v
        | none => acc)
    []

/-- `row.get('file')` on a `csv.DictReader` row. -/
def rowFile (row : List (String × String)) : Option String :=
  (row.find? (fun p => p.1 == "file")).map (fun p => p.2)

/-- Result of opening an audio file with `MutagenFile(path, easy=True)` inside
the per-row `try` block: tags found, `None` returned, or an exception raised
anywhere in the open/apply/save block (the three observationally distinct
outcomes). -/
inductive TagOpen where
  | tags (m : List (String × PyVal))
  | noTags
  | raisedErr
deriving Repr

/-- External collaborators of the overwrite operation: `os.path.isfile` and the
mutagen tag store. -/
structure OvwEnv where
  isfile : String → Bool
  openAudio : String → TagOpen

/-- Observable outcome of one CSV row. -/
inductive RowResult where
  | skippedMissing (fp : Option String)  -- blank/absent file column, or not a file on disk
  | unsupported (fp : String)            -- MutagenFile returned None: warn, continue
  | saved (fp : String) (metadata : List (String × PyVal))      -- real save performed
  | previewed (fp : String) (metadata : List (String × PyVal))  -- dry-run preview only
  | errorLogged (fp : String)            -- per-file exception caught and logged
deriving Repr

/-- Processing of a single CSV row (`mediaclassifier.py` lines 180-213). -/
def processRow (env : OvwEnv) (dry : Bool) (row : List (String × String)) :
    RowResult :=
  match rowFile row with
  | none => .skippedMissing none
  | some fp =>
    if fp == "" || !env.isfile fp then .skippedMissing (some fp)
    else
      let md := buildMetadata row
      match env.openAudio fp with
      | .raisedErr => .errorLogged fp
      | .noTags => .unsupported fp
      | .tags _ => if dry then .previewed fp md else .saved fp md

/-- The row loop of `overwrite_music_metadata_from_csv`: every row is handled
independently (`continue` and the per-file `try`-`except` never abort the loop). -/
def processRows (env : OvwEnv) (dry : Bool) : List (List (String × String)) →
    List RowResult
  | [] => []
  | row :: rest => processRow env dry row :: processRows env dry rest

/-- The tag saves actually performed by a run. -/
def savesOf (rs : List RowResult) : List (String × List (String × PyVal)) :=
  rs.filterMap (fun r =>
    match r with
    | .saved fp md => some (fp, md)
    | _ => none)

/-- The writes a run decides on, whether performed (`saved`) or only
previewed (`previewed`). -/
def plannedWrites (rs : List RowResult) : List (String × List (String × PyVal)) :=
  rs.filterMap (fun r =>
    match r with
    | .saved fp md => some (fp, md)
    | .previewed fp md => some (fp, md)
    | _ => none)

/-! ## Video sorting (`sort_videos`) -/

/-- ASCII model of Python `str.lower()` (filenames in the claims are ASCII). -/
def lowerStr (s : String) : String := String.mk (s.data.map Char.toLower)

/-- `file.lower().endswith(('.mp4', '.avi', '.mkv', '.mov'))`. -/
def eligibleExt (fname : String) : Bool :=
  let l := (lowerStr fname).data
  List.isSuffixOf ".mp4".data l || List.isSuffixOf ".avi".data l ||
  List.isSuffixOf ".mkv".data l || List.isSuffixOf ".mov".data l

/-- Python's substring test `needle in hay`. -/
def containsSub (needle : List Char) : List Char → Bool
  | [] => needle.isEmpty
  | c :: rest => needle.isPrefixOf (c :: rest) || containsSub needle rest

/-- `self.pattern in file`. -/
def strContains (hay needle : String) : Bool := containsSub needle.data hay.data

/-- Case-insensitive extension alternative `(mp4|avi|mkv|mov)` of the date
regex. -/
def extGroupOk (e1 e2 e3 : Char) : Bool :=
  let l := [e1.toLower, e2.toLower, e3.toLower]
  l == ['m', 'p', '4'] || l == ['a', 'v', 'i'] ||
    l == ['m', 'k', 'v'] || l == ['m', 'o', 'v']

/-- `re.match` of the compiled pattern
`(\d{4})(\d{2})(\d{2})_\d{6}\.(mp4|avi|mkv|mov)$` with `re.IGNORECASE`
(`mediaclassifier.py` line 66).  Every alternative of the pattern is
fixed-width, so a successful match - anchored on the left by `re.match` and on
the right by `$` - consumes exactly the whole 19-character name; digits are
modelled as ASCII digits.  Returns the three captured groups. -/
def date_match (fname : String) : Option (String × String × String) :=
  match fname.data with
  | [y1, y2, y3, y4, m1, m2, d1, d2, u, t1, t2, t3, t4, t5, t6, dot, e1, e2, e3] =>
    if (y1.isDigit && y2.isDigit && y3.isDigit && y4.isDigit) &&
        (m1.isDigit && m2.isDigit) && (d1.isDigit && d2.isDigit) &&
        u == '_' &&
        (t1.isDigit && t2.isDigit && t3.isDigit && t4.isDigit && t5.isDigit && t6.isDigit) &&
        dot == '.' && extGroupOk e1 e2 e3 then
      some (String.mk [y1, y2, y3, y4], String.mk [m1, m2], String.mk [d1, d2])
    else none
  | _ => none

/-- Destination folder for one filename, as path components under
`self.directory`: the raw captured groups on a match, `SortedVideos` otherwise
(`mediaclassifier.py` lines 76-83). -/
def destFor (fname : String) : List String :=
  match date_match fname with
  | some (y, m, d) => [y, m, d]
  | none => ["SortedVideos"]

/-- `new_path = os.path.join(new_folder, file)`. -/
def newPathFor (fname : String) : List String := destFor fname ++ [fname]

/-- The per-file decision of the `sort_videos` loop body: `none` when the file
is skipped (wrong extension, or filtered out by `self.pattern`), otherwise the
`(old_path, new_path)` move that is logged and performed. -/
def fileAction (pattern : String) (dirPath : List String) (fname : String) :
    Option (List String × List String) :=
  if eligibleExt fname then
    if pattern != "" && !strContains fname pattern then none
    else some (dirPath ++ [fname], newPathFor fname)
  else none

/-- A directory tree: directory name, subdirectories, and files as
`(name, content)` pairs - contents are opaque identifiers, kept only so that an
overwriting rename is observable. -/
inductive FSTree where
  | node (name : String) (subdirs : List FSTree) (files : List (String × Nat))
deriving Repr

def FSTree.name : FSTree → String
  | .node n _ _ => n

def FSTree.subdirs : FSTree → List FSTree
  | .node _ s _ => s

def FSTree.files : FSTree → List (String × Nat)
  | .node _ _ f => f

/-- Resolve a component path (relative to the root) to a directory. -/
def lookupDir : FSTree → List String → Option FSTree
  | t, [] => some t
  | .node _ subs _, c :: cs =>
    match subs.find? (fun s => s.name == c) with
    | some s => lookupDir s cs
    | none => none

/-- Apply `f` to the directory at `path`, leaving the tree unchanged when the
path does not resolve.  (Sibling directories of one name cannot coexist on a
real filesystem, so updating every same-named sibling agrees with updating the
one the lookups see.) -/
def mapDir (f : FSTree → FSTree) : List String → FSTree → FSTree
  | [], t => f t
  | c :: cs, .node n subs fs =>
    .node n (subs.map (fun s => if s.name == c then mapDir f cs s else s)) fs

/-- Does `p` resolve to a file? (last component a file entry of its parent). -/
def fileExists : FSTree → List String → Bool
  | _, [] => false
  | .node _ _ fs, [fname] => fs.any (fun e => e.1 == fname)
  | .node _ subs _, c :: c2 :: cs =>
    match subs.find? (fun s => s.name == c) with
    | some s => fileExists s (c2 :: cs)
    | none => false

/-- `os.path.exists`: a directory or a file. -/
def pathExists (t : FSTree) (p : List String) : Bool :=
  (lookupDir t p).isSome || fileExists t p

/-- A fresh chain of empty directories. -/
def mkChain : String → List String → FSTree
  | c, [] => .node c [] []
  | c, d :: ds => .node c [mkChain d ds] []

/-- `os.makedirs(path)`: create every missing component.  (A component that
exists only as a *file* would make the real call raise; the code never reaches
that situation because it tests `os.path.exists` first, and on an existing
path it skips the call.) -/
def makedirs : List String → FSTree → FSTree
  | [], t => t
  | c :: cs, .node n subs fs =>
    if subs.any (fun s => s.name == c) then
      .node n (subs.map (fun s => if s.name == c then makedirs cs s else s)) fs
    else .node n (subs ++ [mkChain c cs]) fs

/-- Remove the entry named `fname` from a directory's file list. -/
def removeEntry (d : FSTree) (fname : String) : FSTree :=
  .node d.name d.subdirs (d.files.filter (fun e => e.1 != fname))

/-- Add (or silently replace) the entry named `fname` in a directory. -/
def putEntry (d : FSTree) (fname : String) (content : Nat) : FSTree :=
  .node d.name d.subdirs (d.files.filter (fun e => e.1 != fname) ++ [(fname, content)])

/-- `os.rename(src, dst)` with POSIX semantics: fails (raises `OSError`,
modelled as `none`) when the source file or the destination's parent directory
is missing; an existing file of the same name at the destination is silently
replaced. -/
def renameFile (t : FSTree) (src dst : List String) : Option FSTree :=
  match src.getLast?, dst.getLast? with
  | some sn, some dn =>
    match lookupDir t src.dropLast with
    | none => none
    | some sd =>
      match sd.files.find? (fun e => e.1 == sn) with
      | none => none
      | some entry =>
        let t1 := mapDir (fun d => removeEntry d sn) src.dropLast t
        match lookupDir t1 dst.dropLast with
        | none => none
        | some _ => some (mapDir (fun d => putEntry d dn entry.2) dst.dropLast t1)
  | _, _ => none

/-- One iteration of the inner `for file in files` loop: compute the decision,
create the destination folder when missing (skipped in a dry run), log the
move, and perform it unless dry-running.  `none` models an uncaught `OSError`
from `os.rename`, which aborts the whole `sort_videos` call. -/
def stepFile (dry : Bool) (pattern : String) (dirPath : List String)
    (fname : String) (st : FSTree) :
    Option (FSTree × List (List String × List String)) :=
  match fileAction pattern dirPath fname with
  | none => some (st, [])
  | some (oldP, newP) =>
    if dry then some (st, [(oldP, newP)])
    else
      let st1 := if pathExists st (destFor fname) then st else makedirs (destFor fname) st
      (renameFile st1 oldP newP).map (fun st2 => (st2, [(oldP, newP)]))

/-- The inner loop over the files of one directory, threading the filesystem
state. -/
def stepFiles (dry : Bool) (pattern : String) (dirPath : List String) :
    List String → FSTree → Option (FSTree × List (List String × List String))
  | [], st => some (st, [])
  | f :: fs, st =>
    match stepFile dry pattern dirPath f st with
    | none => none
    | some (st1, mv) =>
      match stepFiles dry pattern dirPath fs st1 with
      | none => none
      | some (st2, mvs) => some (st2, mv ++ mvs)

/-- The `os.walk` consumer loop of `sort_videos`.  The walk is top-down and
lazy: each directory's listing is taken from the *current* state when the
directory is visited, the subdirectory list is pruned by `ignore_folders`
before descent, and `break` after the first directory models
`if not self.recursive: break`.  The worklist is a DFS stack; `fuel` bounds
the recursion depth and is chosen large enough by callers (a directory whose
path no longer resolves is skipped, as `os.walk` does). -/
def runWalk (dry recursive : Bool) (pattern : String) (ignore : List String) :
    Nat → List (List String) → FSTree →
    Option (FSTree × List (List String × List String))
  | _, [], st => some (st, [])
  | 0, _ :: _, st => some (st, [])
  | fuel + 1, p :: rest, st =>
    match lookupDir st p with
    | none => runWalk dry recursive pattern ignore fuel rest st
    | some d =>
      let names := d.files.map (fun e => e.1)
      let kept := (d.subdirs.filter (fun c => !(ignore.contains c.name))).map
        (fun c => p ++ [c.name])
      match stepFiles dry pattern p names st with
      | none => none
      | some (st1, mvs) =>
        if recursive then
          match runWalk dry recursive pattern ignore fuel (kept ++ rest) st1 with
          | none => none
          | some (st2, mvs2) => some (st2, mvs ++ mvs2)
        else some (st1, mvs)

/-- `Classifier.sort_videos` (`mediaclassifier.py` lines 65-101) over an
explicit filesystem state rooted at `self.directory`.  Returns the final state
and the chronological list of `(old_path, new_path)` moves it logged, or
`none` when an uncaught `OSError` aborts the call. -/
def sort_videos (dry recursive : Bool) (pattern : String) (ignore : List String)
    (fuel : Nat) (root : FSTree) :
    Option (FSTree × List (List String × List String)) :=
  runWalk dry recursive pattern ignore fuel [[]] root

/-! ## Tree walker (`os.walk` with in-place pruning)

`list_music_metadata` and `export_music_metadata` walk the tree without
mutating it, so their traversal is the pure walk below.  Yielded paths carry
the root's own name as first component (`os.walk` yields `self.directory`
itself first). -/

mutual

/-- The walk over one directory: yield `(path, file names)`, then descend into
the subdirectories that survive
`dirs[:] = [d for d in dirs if d not in self.ignore_folders]` - the pruning
happens before any descent. -/
def walkTree (ignore : List String) : FSTree → List (List String × List String)
  | .node n subs fs =>
    ([n], fs.map (fun e => e.1)) :: walkSubs ignore n subs

/-- Descend into each subdirectory in order, skipping ignored names. -/
def walkSubs (ignore : List String) (n : String) :
    List FSTree → List (List String × List String)
  | [] => []
  | c :: cs =>
    (if ignore.contains c.name then []
     else (walkTree ignore c).map (fun e => (n :: e.1, e.2))) ++
      walkSubs ignore n cs

end

/-- The walk as consumed by the export/list loops: `if not self.recursive:
break` stops the generator after its first yield. -/
def walkedEntries (recursive : Bool) (ignore : List String) (t : FSTree) :
    List (List String × List String) :=
  if recursive then walkTree ignore t else (walkTree ignore t).take 1

/-! ## Metadata export (`export_music_metadata`, CSV branch) -/

/-! `str()` of a scalar, and `repr()` inside containers, as the `csv` module
renders cell values (string escaping inside `repr` is outside the model). -/

mutual

/-- Python `str()` of a value. -/
def pvStr : PyVal → String
  | .str s => s
  | .int n => toString n
  | .float raw => raw
  | .bool b => if b then "True" else "False"
  | .pynone => "None"
  | .list xs => "[" ++ pvReprJoin xs ++ "]"
  | .tuple [x] => "(" ++ pvRepr x ++ ",)"
  | .tuple xs => "(" ++ pvReprJoin xs ++ ")"
  | .dict kvs => "\x7b" ++ pvReprPairs kvs ++ "\x7d"
  | .pyset xs => "\x7b" ++ pvReprJoin xs ++ "\x7d"
termination_by v => (sizeOf v, 0)

/-- Python `repr()` of a value. -/
def pvRepr : PyVal → String
  | .str s => "'" ++ s ++ "'"
  | v => pvStr v
termination_by v => (sizeOf v, 1)

/-- `', '.join` of rendered values. -/
def pvReprJoin : List PyVal → String
  | [] => ""
  | [x] => pvRepr x
  | x :: y :: xs => pvRepr x ++ ", " ++ pvReprJoin (y :: xs)
termination_by xs => (sizeOf xs, 2)

/-- `', '.join` of rendered `key: value` pairs. -/
def pvReprPairs : List (PyVal × PyVal) → String
  | [] => ""
  | [(k, v)] => pvRepr k ++ ": " ++ pvRepr v
  | (k, v) :: p :: ps => pvRepr k ++ ": " ++ pvRepr v ++ ", " ++ pvReprPairs (p :: ps)
termination_by kvs => (sizeOf kvs, 2)

end

/-- The per-file dict built by the export loop:
`entry = {'file': music_path}` followed by `entry[key] = value` for each tag. -/
def mkEntry (file : String) (tags : List (String × PyVal)) :
    List (String × PyVal) :=
  tags.foldl (fun d kv => dictSet d kv.1 kv.2) [("file", .str file)]

/-- `all_keys = sorted(set-union of entry.keys() over metadata_list)`
(`mediaclassifier.py` lines 157-161): Python's `sorted` on distinct strings is
the unique ascending arrangement, modelled by insertion sort after
deduplication. -/
def csvHeaderOf (entries : List (List (String × PyVal))) : List String :=
  ((entries.flatMap (fun e => e.map (fun p => p.1))).dedup).insertionSort (fun a b => a ≤ b)

/-- `csv.DictWriter.writerow` with the default `extrasaction='raise'` and
`restval=None` (which the csv writer serialises as the empty cell): `none`
models the `ValueError` on a key outside the header. -/
def csvRow (header : List String) (entry : List (String × PyVal)) :
    Option (List String) :=
  if entry.all (fun p => header.contains p.1) then
    some (header.map (fun k =>
      match entry.find? (fun p => p.1 == k) with
      | some p => pvStr p.2
      | none => ""))
  else none

/-- All data rows; any row failure aborts the `try` block. -/
def csvRows (header : List String) :
    List (List (String × PyVal)) → Option (List (List String))
  | [] => some []
  | e :: es =>
    match csvRow header e with
    | none => none
    | some r =>
      match csvRows header es with
      | none => none
      | some rs => some (r :: rs)

/-- The CSV branch of `Classifier.export_music_metadata` (`mediaclassifier.py`
lines 157-168), applied to the records collected by the walk: each record is a
`(music_path, tags)` pair.  Returns the header row and the data rows. -/
def export_music_metadata_csv (records : List (String × List (String × PyVal))) :
    Option (List String × List (List String)) :=
  let ms := records.map (fun r => mkEntry r.1 r.2)
  let header := csvHeaderOf ms
  match csvRows header ms with
  | some rows => some (header, rows)
  | none => none

/-- The header the specification describes: the sorted union of all field keys
across every record plus the literal `file` key. -/
def specHeader (records : List (String × List (String × PyVal))) : List String :=
  (("file" :: records.flatMap (fun r => r.2.map (fun p => p.1))).dedup).insertionSort
    (fun a b => a ≤ b)

/-- Spec-side notion used by the claim about value coercion: a parsed literal
that is a Python *sequence* (list or tuple). -/
def isSeqLit : PyVal → Bool
  | .list _ => true
  | .tuple _ => true
  | _ => false

/-- What a dry run reports in place of a performed save: identical except that
a `saved` outcome becomes a `previewed` one. -/
def dryShadow : RowResult → RowResult
  | .saved fp md => .previewed fp md
  | r => r

/-! ## Theorems -/

/-- Peel one element off a list of known length. -/
theorem len_peel {α} (l : List α) (n : Nat) (h : l.length = n + 1) :
    ∃ a l2, l = a :: l2 ∧ l2.length = n := by
  cases l with
  | nil => simp at h
  | cons a l2 => exact ⟨a, l2, rfl, by simpa using h⟩

/-- A successful `date_match` forces the 19-character shape. -/
theorem date_match_length (s : String) (h : (date_match s).isSome = true) :
    s.data.length = 19 := by
  unfold date_match at h
  split at h
  · next heq => rw [heq]; simp
  · simp at h

/-- C4 counterexample: the cell text `('Rock', 'Pop')` parses to a tuple - a
Python sequence - yet the source sets nothing (`isinstance(parsed, list)` is
false and a tuple is no scalar), instead of using the first element `'Rock'`
as the claim requires. -/
theorem coerceCell_tuple_counterexample :
    literal_eval "('Rock', 'Pop')" = some (.tuple [.str "Rock", .str "Pop"]) ∧
    isSeqLit (.tuple [.str "Rock", .str "Pop"]) = true ∧
    coerceCell "('Rock', 'Pop')" = none ∧
    coerceCell "('Rock', 'Pop')" ≠ some (.str "Rock") := by
  refine ⟨rfl, rfl, rfl, ?_⟩
  rw [show coerceCell "('Rock', 'Pop')" = none from rfl]
  simp

/-- C4 (amended): a cell parsing to a *non-empty list* yields its first
element; a scalar (string/int/float, and bool, which is an `int` to
`isinstance`) is used as-is; an unparseable cell falls back to the raw text;
an empty cell leaves the metadata dict untouched.  (A successfully parsed
tuple, empty list, dict, set or `None` sets nothing.) -/
theorem coerceCell_coercion :
    (∀ v x xs, literal_eval v = some (.list (x :: xs)) → coerceCell v = some x) ∧
    (∀ v s, literal_eval v = some (.str s) → coerceCell v = some (.str s)) ∧
    (∀ v n, literal_eval v = some (.int n) → coerceCell v = some (.int n)) ∧
    (∀ v r, literal_eval v = some (.float r) → coerceCell v = some (.float r)) ∧
    (∀ v, literal_eval v = none → coerceCell v = some (.str v)) ∧
    (∀ pre post k, buildMetadata (pre ++ (k, "") :: post) = buildMetadata (pre ++ post)) := by
  refine ⟨?_, ?_, ?_, ?_, ?_, ?_⟩
  · intro v x xs h; simp [coerceCell, h]
  · intro v s h; simp [coerceCell, h]
  · intro v n h; simp [coerceCell, h]
  · intro v r h; simp [coerceCell, h]
  · intro v h; simp [coerceCell, h]
  · intro pre post k
    simp [buildMetadata, List.foldl_append]

/-- Witness for `coerceCell_coercion` at the three cell texts named by the
specification, plus an empty cell. -/
theorem coerceCell_coercion_witness :
    coerceCell "['Rock', 'Pop']" = some (.str "Rock") ∧
    coerceCell "123" = some (.int 123) ∧
    coerceCell "Unparsed" = some (.str "Unparsed") ∧
    buildMetadata [("genre", "")] = buildMetadata [] := by
  exact ⟨coerceCell_coercion.1 _ (.str "Rock") [.str "Pop"] rfl,
    coerceCell_coercion.2.2.1 _ 123 rfl,
    coerceCell_coercion.2.2.2.2.1 "Unparsed" rfl,
    coerceCell_coercion.2.2.2.2.2 [] [] "genre"⟩

/-- `dictSet` preserves a pointwise key/value invariant. -/
theorem dictSet_all (P : String × PyVal → Bool) (d : List (String × PyVal))
    (k : String) (v : PyVal) (hd : d.all P = true) (hkv : P (k, v) = true) :
    (dictSet d k v).all P = true := by
  unfold dictSet
  split
  · rw [List.all_eq_true] at hd ⊢
    intro p hp
    rw [List.mem_map] at hp
    obtain ⟨q, hq, rfl⟩ := hp
    by_cases h : q.1 == k
    · simp only [h, if_true]; exact hkv
    · simp only [h, Bool.false_eq_true, if_false]; exact hd q hq
  · rw [List.all_append]
    simp [hd, hkv]

/-- C10: the metadata dict written to the tag store never contains the key
`file` - that column is consumed only as the target path. -/
theorem overwrite_metadata_never_contains_file (row : List (String × String)) :
    (buildMetadata row).all (fun kv => kv.1 != "file") = true := by
  suffices h : ∀ acc : List (String × PyVal),
      acc.all (fun kv => kv.1 != "file") = true →
      (List.foldl
        (fun (acc : List (String × PyVal)) (kv : String × String) =>
          if kv.1 == "file" || kv.2 == "" then acc
          else
            match coerceCell kv.2 with
            | some v => dictSet acc kv.1 v
            | none => acc)
        acc row).all (fun kv => kv.1 != "file") = true by
    exact h [] rfl
  induction row with
  | nil => intro acc hacc; simpa using hacc
  | cons kv rest ih =>
    intro acc hacc
    simp only [List.foldl_cons]
    by_cases hk : kv.1 == "file" || kv.2 == ""
    · rw [if_pos hk]; exact ih acc hacc
    · rw [if_neg hk]
      have hkf : (kv.1 != "file") = true := by
        simp only [Bool.or_eq_true, beq_iff_eq] at hk
        push_neg at hk
        simpa [bne_iff_ne] using hk.1
      cases hcc : coerceCell kv.2 with
      | none => exact ih acc hacc
      | some v => exact ih _ (dictSet_all _ acc kv.1 v hacc hkf)

/-- C9: a row with a blank or missing `file` column, a row whose file is not
on disk, and a row whose open/apply/save raises, are each logged and skipped
while every remaining row is still processed. -/
theorem overwrite_bad_rows_skipped :
    (∀ env dry row rest, rowFile row = none →
        processRows env dry (row :: rest) =
          .skippedMissing none :: processRows env dry rest) ∧
    (∀ env dry row rest fp, rowFile row = some fp →
        (fp = "" ∨ env.isfile fp = false) →
        processRows env dry (row :: rest) =
          .skippedMissing (some fp) :: processRows env dry rest) ∧
    (∀ env dry row rest fp, rowFile row = some fp → fp ≠ "" →
        env.isfile fp = true → env.openAudio fp = .raisedErr →
        processRows env dry (row :: rest) =
          .errorLogged fp :: processRows env dry rest) := by
  refine ⟨?_, ?_, ?_⟩
  · intro env dry row rest h
    simp [processRows, processRow, h]
  · intro env dry row rest fp h hbad
    rcases hbad with h1 | h1 <;> simp [processRows, processRow, h, h1]
  · intro env dry row rest fp h h1 h2 h3
    simp [processRows, processRow, h, h1, h2, h3]

/-- Witness for `overwrite_bad_rows_skipped`: a row naming a file that is not
on disk is skipped and the following row is still processed. -/
theorem overwrite_bad_rows_skipped_witness :
    processRows ⟨fun _ => false, fun _ => .raisedErr⟩ false
        [[("file", "x.mp3")], [("file", "")]] =
      [.skippedMissing (some "x.mp3"), .skippedMissing (some "")] := by
  have h := overwrite_bad_rows_skipped.2.1 ⟨fun _ => false, fun _ => .raisedErr⟩
    false [("file", "x.mp3")] [[("file", "")]] "x.mp3" rfl (Or.inr rfl)
  rw [h]
  rfl

/-- C2: an eligible video filename (extension check, optional substring
filter) that does not match the anchored date pattern is sent to
`root/SortedVideos/filename`; and - the anchoring - prepending any non-empty
text to a matching name makes the pattern fail. -/
theorem sort_videos_fallback_destination :
    (∀ pattern dirPath fname, eligibleExt fname = true →
        (pattern = "" ∨ strContains fname pattern = true) →
        date_match fname = none →
        fileAction pattern dirPath fname =
          some (dirPath ++ [fname], ["SortedVideos", fname])) ∧
    (∀ pre body : List Char, pre ≠ [] → (date_match (String.mk body)).isSome = true →
        date_match (String.mk (pre ++ body)) = none) := by
  constructor
  · intro pattern dirPath fname helig hfilt hnone
    have hcond : (pattern != "" && !strContains fname pattern) = false := by
      rcases hfilt with h | h <;> simp [h]
    simp [fileAction, helig, hcond, newPathFor, destFor, hnone]
  · intro pre body hpre hbody
    have hlen : body.length = 19 := by
      have := date_match_length (String.mk body) hbody
      simpa using this
    cases hfull : date_match (String.mk (pre ++ body)) with
    | none => rfl
    | some r =>
      have : (pre ++ body).length = 19 := by
        have := date_match_length (String.mk (pre ++ body)) (by simp [hfull])
        simpa using this
      rw [List.length_append, hlen] at this
      cases pre with
      | nil => exact absurd rfl hpre
      | cons a l => rw [List.length_cons] at this; omega

/-- Witness for `sort_videos_fallback_destination`: `random.mkv` goes to
`SortedVideos`, and a leading `x` defeats the date pattern. -/
theorem sort_videos_fallback_destination_witness :
    fileAction "" ["sub"] "random.mkv" =
      some (["sub", "random.mkv"], ["SortedVideos", "random.mkv"]) ∧
    date_match (String.mk ('x' :: "20230115_141500.mp4".data)) = none := by
  exact ⟨sort_videos_fallback_destination.1 "" ["sub"] "random.mkv" rfl (Or.inl rfl) rfl,
    sort_videos_fallback_destination.2 ['x'] "20230115_141500.mp4".data (by simp) rfl⟩

/-- C7: with `recursive` false the walk yields exactly the root directory with
its immediate listing and stops, whatever the tree's depth. -/
theorem walker_nonrecursive_root_only (ignore : List String) (n : String)
    (subs : List FSTree) (fs : List (String × Nat)) :
    walkedEntries false ignore (.node n subs fs) = [([n], fs.map (fun e => e.1))] := by
  simp [walkedEntries, walkTree]

/-- A 2-character list, elementwise. -/
theorem data_len2 {l : List Char} (h : l.length = 2) : ∃ a b, l = [a, b] := by
  obtain ⟨a, l1, rfl, h1⟩ := len_peel l 1 h
  obtain ⟨b, l2, rfl, h2⟩ := len_peel l1 0 h1
  rw [List.length_eq_zero] at h2
  exact ⟨a, b, by rw [h2]⟩

/-- A 4-character list, elementwise. -/
theorem data_len4 {l : List Char} (h : l.length = 4) : ∃ a b c d, l = [a, b, c, d] := by
  obtain ⟨a, l1, rfl, h1⟩ := len_peel l 3 h
  obtain ⟨b, l2, rfl, h2⟩ := len_peel l1 2 h1
  obtain ⟨c, l3, h3⟩ := data_len2 h2
  exact ⟨a, b, c, l3, by rw [h3]⟩

/-- A 3-character list, elementwise. -/
theorem data_len3 {l : List Char} (h : l.length = 3) : ∃ a b c, l = [a, b, c] := by
  obtain ⟨a, l1, rfl, h1⟩ := len_peel l 2 h
  obtain ⟨b, c, h2⟩ := data_len2 h1
  exact ⟨a, b, c, by rw [h2]⟩

/-- A 6-character list, elementwise. -/
theorem data_len6 {l : List Char} (h : l.length = 6) :
    ∃ a b c d e f, l = [a, b, c, d, e, f] := by
  obtain ⟨a, l1, rfl, h1⟩ := len_peel l 5 h
  obtain ⟨b, l2, rfl, h2⟩ := len_peel l1 4 h1
  obtain ⟨c, d, e, f, h3⟩ := data_len4 h2
  exact ⟨a, b, c, d, e, f, by rw [h3]⟩

/-- C1: a filename that is, character for character, four digit groups
`YYYY MM DD`, an underscore, six time digits, a dot and one of the four video
extensions (case-insensitively) is matched by the anchored date pattern, and
`sort_videos` sends it to `root/YYYY/MM/DD` - the captured groups verbatim,
with no validation of MM or DD - with the destination path being that folder
joined with the original filename. -/
theorem sort_videos_dated_destination
    (fname y m d t e : String)
    (hf : fname = y ++ m ++ d ++ "_" ++ t ++ "." ++ e)
    (hylen : y.length = 4) (hy : y.data.all Char.isDigit = true)
    (hmlen : m.length = 2) (hm : m.data.all Char.isDigit = true)
    (hdlen : d.length = 2) (hd : d.data.all Char.isDigit = true)
    (htlen : t.length = 6) (ht : t.data.all Char.isDigit = true)
    (he : lowerStr e ∈ (["mp4", "avi", "mkv", "mov"] : List String)) :
    date_match fname = some (y, m, d) ∧ destFor fname = [y, m, d] ∧
      newPathFor fname = [y, m, d] ++ [fname] := by
  obtain ⟨y1, y2, y3, y4, hy4⟩ := data_len4 (l := y.data) hylen
  obtain ⟨m1, m2, hm2⟩ := data_len2 (l := m.data) hmlen
  obtain ⟨d1, d2, hd2⟩ := data_len2 (l := d.data) hdlen
  obtain ⟨t1, t2, t3, t4, t5, t6, ht6⟩ := data_len6 (l := t.data) htlen
  have hmap : e.data.map Char.toLower = ['m', 'p', '4'] ∨
      e.data.map Char.toLower = ['a', 'v', 'i'] ∨
      e.data.map Char.toLower = ['m', 'k', 'v'] ∨
      e.data.map Char.toLower = ['m', 'o', 'v'] := by
    simp only [List.mem_cons, List.mem_singleton] at he
    rcases he with h | h | h | h | h <;>
      first
        | exact absurd h (by simp)
        | (refine Or.inl ?_ ; exact congrArg String.data h)
        | (refine Or.inr (Or.inl ?_) ; exact congrArg String.data h)
        | (refine Or.inr (Or.inr (Or.inl ?_)) ; exact congrArg String.data h)
        | (refine Or.inr (Or.inr (Or.inr ?_)) ; exact congrArg String.data h)
  have helen : e.data.length = 3 := by
    rcases hmap with h | h | h | h <;>
      simpa using congrArg List.length h
  obtain ⟨e1, e2, e3, he0⟩ := data_len3 (l := e.data) helen
  have hext : extGroupOk e1 e2 e3 = true := by
    rw [he0] at hmap
    simp only [List.map_cons, List.map_nil] at hmap
    rcases hmap with h | h | h | h <;> simp [extGroupOk, h]
  have hdata : fname.data =
      [y1, y2, y3, y4, m1, m2, d1, d2, '_', t1, t2, t3, t4, t5, t6, '.', e1, e2, e3] := by
    rw [hf]
    simp [String.data_append, hy4, hm2, hd2, ht6, he0]
  rw [hy4] at hy
  rw [hm2] at hm
  rw [hd2] at hd
  rw [ht6] at ht
  simp only [List.all_cons, List.all_nil, Bool.and_true, Bool.and_eq_true] at hy hm hd ht
  obtain ⟨hya, hyb, hyc, hyd⟩ := hy
  obtain ⟨hma, hmb⟩ := hm
  obtain ⟨hda, hdb⟩ := hd
  obtain ⟨hta, htb, htc, htd, hte, htf⟩ := ht
  have hmatch : date_match fname = some (y, m, d) := by
    unfold date_match
    rw [hdata]
    simp only [hya, hyb, hyc, hyd, hma, hmb, hda, hdb, hta, htb, htc, htd, hte, htf, hext,
      Bool.and_self, Bool.and_true, Bool.true_and, beq_self_eq_true, if_true]
    rw [← hy4, ← hm2, ← hd2]
  exact ⟨hmatch, by simp [destFor, hmatch], by simp [newPathFor, destFor, hmatch]⟩

/-- Witness for `sort_videos_dated_destination`, with `MM = 13` and `DD = 40`
showing that no month/day validation happens, and an upper-case extension. -/
theorem sort_videos_dated_destination_witness :
    date_match "99991340_123456.MKV" = some ("9999", "13", "40") ∧
    destFor "99991340_123456.MKV" = ["9999", "13", "40"] ∧
    newPathFor "99991340_123456.MKV" = ["9999", "13", "40"] ++ ["99991340_123456.MKV"] := by
  exact sort_videos_dated_destination "99991340_123456.MKV" "9999" "13" "40" "123456" "MKV"
    rfl rfl rfl rfl rfl rfl rfl rfl rfl (by decide)

/-- C3 counterexample: with `random.mkv` (content `2`) at the root and a
different `random.mkv` (content `1`) already present in the pre-existing
destination `SortedVideos`, the run *succeeds* - no hard failure - and the
pre-existing destination file has been silently replaced by the moved one:
bare `os.rename` on POSIX overwrites. -/
theorem rename_collision_counterexample :
    sort_videos false false "" [] 5
        (.node "root" [.node "SortedVideos" [] [("random.mkv", 1)]] [("random.mkv", 2)]) =
      some (.node "root" [.node "SortedVideos" [] [("random.mkv", 2)]] [],
        [(["random.mkv"], ["SortedVideos", "random.mkv"])]) ∧
    lookupDir (.node "root" [.node "SortedVideos" [] [("random.mkv", 2)]] [])
        ["SortedVideos"] = some (.node "SortedVideos" [] [("random.mkv", 2)]) :=
  ⟨rfl, rfl⟩

/-- C3 (amended): `sort_videos` has no collision handling at all; whatever
contents the source file (`c`) and the already-existing destination file
(`c'`) have, the move goes through the bare rename primitive, which under
POSIX semantics succeeds silently and leaves the moved file in place of the
pre-existing one.  (On Windows the primitive would raise instead, aborting the
whole call, not just this file - either way no per-file collision failure
exists in the code.) -/
theorem rename_collision_silent_replace (c c' : Nat) :
    sort_videos false false "" [] 5
        (.node "root" [.node "SortedVideos" [] [("random.mkv", c')]] [("random.mkv", c)]) =
      some (.node "root" [.node "SortedVideos" [] [("random.mkv", c)]] [],
        [(["random.mkv"], ["SortedVideos", "random.mkv"])]) := rfl

/-- C8 counterexample: same initial state - a pre-existing *empty*
`SortedVideos` and recursive traversal - yet the dry run logs one move while
the real run logs two: the real run mutates the tree, and the lazy walk then
re-encounters the moved file inside the destination directory.  Dry and real
runs therefore do not compute exactly the same moves. -/
theorem dry_run_moves_counterexample :
    sort_videos true true "" [] 5
        (.node "root" [.node "SortedVideos" [] []] [("random.mkv", 0)]) =
      some (.node "root" [.node "SortedVideos" [] []] [("random.mkv", 0)],
        [(["random.mkv"], ["SortedVideos", "random.mkv"])]) ∧
    sort_videos false true "" [] 5
        (.node "root" [.node "SortedVideos" [] []] [("random.mkv", 0)]) =
      some (.node "root" [.node "SortedVideos" [] [("random.mkv", 0)]] [],
        [(["random.mkv"], ["SortedVideos", "random.mkv"]),
          (["SortedVideos", "random.mkv"], ["SortedVideos", "random.mkv"])]) ∧
    ([(["random.mkv"], ["SortedVideos", "random.mkv"])] :
        List (List String × List String)) ≠
      [(["random.mkv"], ["SortedVideos", "random.mkv"]),
        (["SortedVideos", "random.mkv"], ["SortedVideos", "random.mkv"])] :=
  ⟨rfl, rfl, by simp⟩

/-- A dry `stepFile` never touches the state and never fails. -/
theorem stepFile_dry (pattern : String) (dirPath : List String) (f : String)
    (st : FSTree) : ∃ mvs, stepFile true pattern dirPath f st = some (st, mvs) := by
  unfold stepFile
  cases h : fileAction pattern dirPath f with
  | none => exact ⟨[], rfl⟩
  | some mv =>
    obtain ⟨o, n⟩ := mv
    exact ⟨[(o, n)], rfl⟩

/-- A dry file loop computes exactly the per-file decisions, on an unchanged
state. -/
theorem stepFiles_dry_eq (pattern : String) (dirPath : List String)
    (fs : List String) (st : FSTree) :
    stepFiles true pattern dirPath fs st =
      some (st, fs.filterMap (fun f => fileAction pattern dirPath f)) := by
  induction fs generalizing st with
  | nil => rfl
  | cons f fs ih =>
    unfold stepFiles stepFile
    cases h : fileAction pattern dirPath f with
    | none => simp [h, ih st]
    | some mv =>
      obtain ⟨o, n⟩ := mv
      simp [h, ih st]

/-- The moves of one performed (non-dry) step are its decision. -/
theorem stepFile_real_moves (pattern : String) (dirPath : List String)
    (f : String) (st stm : FSTree) (mv1 : List (List String × List String))
    (h : stepFile false pattern dirPath f st = some (stm, mv1)) :
    mv1 = (fileAction pattern dirPath f).toList := by
  unfold stepFile at h
  cases hf : fileAction pattern dirPath f with
  | none =>
    rw [hf] at h
    simp only [Option.some.injEq, Prod.mk.injEq] at h
    simp [h.2.symm]
  | some mv =>
    obtain ⟨o, n⟩ := mv
    rw [hf] at h
    simp only [Bool.false_eq_true, if_false, Option.map_eq_some'] at h
    obtain ⟨st3, h3, h4⟩ := h
    rw [Prod.mk.injEq] at h4
    simp [h4.2.symm]

/-- The moves of a performed (non-dry) file loop are exactly the per-file
decisions - the same list a dry run reports. -/
theorem stepFiles_real_moves (pattern : String) (dirPath : List String) :
    ∀ (fs : List String) (st st2 : FSTree) (mvs : List (List String × List String)),
    stepFiles false pattern dirPath fs st = some (st2, mvs) →
    mvs = fs.filterMap (fun f => fileAction pattern dirPath f) := by
  intro fs
  induction fs with
  | nil =>
    intro st st2 mvs h
    simp only [stepFiles, Option.some.injEq, Prod.mk.injEq] at h
    simp [h.2.symm]
  | cons f fs ih =>
    intro st st2 mvs h
    unfold stepFiles at h
    cases hf : stepFile false pattern dirPath f st with
    | none => rw [hf] at h; cases h
    | some p =>
      obtain ⟨stm, mv1⟩ := p
      rw [hf] at h
      dsimp only at h
      cases hrest : stepFiles false pattern dirPath fs stm with
      | none => rw [hrest] at h; cases h
      | some q =>
        obtain ⟨stf, mvs2⟩ := q
        rw [hrest] at h
        simp only [Option.some.injEq, Prod.mk.injEq] at h
        rw [← h.2]
        rw [stepFile_real_moves pattern dirPath f st stm mv1 hf,
          ih stm stf mvs2 hrest]
        cases hfa : fileAction pattern dirPath f <;> simp [hfa]

/-- A dry walk never touches the state and never fails, whatever the
configuration, worklist and fuel. -/
theorem runWalk_dry (recursive : Bool) (pattern : String) (ignore : List String) :
    ∀ (fuel : Nat) (stack : List (List String)) (st : FSTree),
    ∃ mvs, runWalk true recursive pattern ignore fuel stack st = some (st, mvs) := by
  intro fuel
  induction fuel with
  | zero =>
    intro stack st
    cases stack with
    | nil => exact ⟨[], rfl⟩
    | cons p rest => exact ⟨[], rfl⟩
  | succ fuel ih =>
    intro stack st
    cases stack with
    | nil => exact ⟨[], rfl⟩
    | cons p rest =>
      cases hl : lookupDir st p with
      | none =>
        obtain ⟨mvs, h⟩ := ih rest st
        exact ⟨mvs, by simp only [runWalk, hl]; exact h⟩
      | some d =>
        by_cases hr : recursive
        · obtain ⟨mvs2, h2⟩ := ih
            (((d.subdirs.filter (fun c => !(ignore.contains c.name))).map
              (fun c => p ++ [c.name])) ++ rest) st
          rw [hr] at h2
          refine ⟨(d.files.map (fun e => e.1)).filterMap
            (fun f => fileAction pattern p f) ++ mvs2, ?_⟩
          simp only [runWalk, hl, stepFiles_dry_eq, hr, if_true, h2]
        · refine ⟨(d.files.map (fun e => e.1)).filterMap
            (fun f => fileAction pattern p f), ?_⟩
          simp [runWalk, hl, stepFiles_dry_eq, hr]

/-- With `recursive` false, a real run that completes performs exactly the
moves the dry run reports (the dry run's final state being the initial one). -/
theorem runWalk_nonrec_real_to_dry (pattern : String) (ignore : List String)
    (fuel : Nat) (st st2 : FSTree) (mvs : List (List String × List String))
    (h : runWalk false false pattern ignore fuel [[]] st = some (st2, mvs)) :
    runWalk true false pattern ignore fuel [[]] st = some (st, mvs) := by
  cases fuel with
  | zero =>
    simp only [runWalk, Option.some.injEq, Prod.mk.injEq] at h
    simp [runWalk, h.2.symm]
  | succ fuel =>
    unfold runWalk at h ⊢
    simp only [lookupDir] at h ⊢
    cases hreal : stepFiles false pattern [] (st.files.map (fun e => e.1)) st with
    | none => rw [hreal] at h; cases h
    | some p =>
      obtain ⟨stf, mv⟩ := p
      rw [hreal] at h
      simp only [Bool.false_eq_true, if_false, Option.some.injEq, Prod.mk.injEq] at h
      rw [stepFiles_dry_eq]
      simp only [Bool.false_eq_true, if_false, Option.some.injEq, Prod.mk.injEq, true_and]
      rw [← h.2]
      exact (stepFiles_real_moves pattern [] (st.files.map (fun e => e.1)) st stf mv hreal).symm

/-- One row of a dry overwrite is the real row's outcome with the save turned
into a preview. -/
theorem processRow_dry (env : OvwEnv) (row : List (String × String)) :
    processRow env true row = dryShadow (processRow env false row) := by
  unfold processRow
  cases h : rowFile row with
  | none => rfl
  | some fp =>
    by_cases h1 : (fp == "" || !env.isfile fp)
    · simp [h1, dryShadow]
    · simp only [h1, Bool.false_eq_true, if_false]
      cases h2 : env.openAudio fp <;> simp [dryShadow]

/-- A dry overwrite's outcomes are the real ones, shadowed row by row. -/
theorem processRows_dry (env : OvwEnv) (rows : List (List (String × String))) :
    processRows env true rows = (processRows env false rows).map dryShadow := by
  induction rows with
  | nil => rfl
  | cons row rest ih => simp [processRows, processRow_dry, ih]

/-- Shadowed outcomes contain no performed save. -/
theorem savesOf_map_dryShadow (rs : List RowResult) :
    savesOf (rs.map dryShadow) = [] := by
  induction rs with
  | nil => rfl
  | cons r rest ih =>
    cases r <;> simp [savesOf, dryShadow, List.filterMap_cons] at ih ⊢ <;> exact ih

/-- Shadowing preserves the decided writes. -/
theorem plannedWrites_map_dryShadow (rs : List RowResult) :
    plannedWrites (rs.map dryShadow) = plannedWrites rs := by
  induction rs with
  | nil => rfl
  | cons r rest ih =>
    cases r <;> simp [plannedWrites, dryShadow, List.filterMap_cons] at ih ⊢ <;> exact ih

/-- C8 (amended): dry runs perform no filesystem mutation - the dry
`sort_videos` walk returns the initial state untouched for every
configuration, and a dry overwrite performs no save while deciding exactly
the writes the real run would perform.  A non-recursive real `sort_videos`
run that completes performs exactly the moves the dry run computes; for
*recursive* runs the claimed equality of computed destinations fails, because
a real run can re-process files it has already moved
(`dry_run_moves_counterexample`). -/
theorem dry_run_frame :
    (∀ (recursive : Bool) (pattern : String) (ignore : List String)
        (fuel : Nat) (stack : List (List String)) (st : FSTree),
      ∃ mvs, runWalk true recursive pattern ignore fuel stack st = some (st, mvs)) ∧
    (∀ (pattern : String) (ignore : List String) (fuel : Nat) (st st2 : FSTree)
        (mvs : List (List String × List String)),
      runWalk false false pattern ignore fuel [[]] st = some (st2, mvs) →
      runWalk true false pattern ignore fuel [[]] st = some (st, mvs)) ∧
    (∀ (env : OvwEnv) (rows : List (List (String × String))),
      savesOf (processRows env true rows) = [] ∧
      plannedWrites (processRows env true rows) =
        plannedWrites (processRows env false rows)) := by
  refine ⟨runWalk_dry, runWalk_nonrec_real_to_dry, ?_⟩
  intro env rows
  rw [processRows_dry]
  exact ⟨savesOf_map_dryShadow _, plannedWrites_map_dryShadow _⟩

/-- Witness for `dry_run_frame`: a completed real non-recursive run on a
one-file tree, whose move the dry run reproduces on an untouched state. -/
theorem dry_run_frame_witness :
    runWalk true false "" [] 3 [[]] (.node "root" [] [("random.mkv", 0)]) =
      some (.node "root" [] [("random.mkv", 0)],
        [(["random.mkv"], ["SortedVideos", "random.mkv"])]) := by
  exact dry_run_frame.2.1 "" [] 3 (.node "root" [] [("random.mkv", 0)])
    (.node "root" [.node "SortedVideos" [] [("random.mkv", 0)]] [])
    [(["random.mkv"], ["SortedVideos", "random.mkv"])] rfl

/-- C5 counterexample: exporting an empty batch writes an empty header - `file`
included in nothing - while the claimed `sorted union plus the file key` is
`["file"]` even for the empty batch. -/
theorem export_header_empty_counterexample :
    export_music_metadata_csv [] = some ([], []) ∧
    specHeader [] = ["file"] ∧
    ([] : List String) ≠ ["file"] :=
  ⟨rfl, rfl, by simp⟩

/-- Key membership after a dict update: the inserted key, plus the old ones. -/
theorem mem_keys_dictSet (d : List (String × PyVal)) (k : String) (v : PyVal)
    (x : String) :
    (x ∈ (dictSet d k v).map (fun p => p.1)) ↔ x = k ∨ x ∈ d.map (fun p => p.1) := by
  unfold dictSet
  split
  · next hany =>
    rw [List.any_eq_true] at hany
    obtain ⟨q, hq, hqk⟩ := hany
    rw [beq_iff_eq] at hqk
    rw [List.map_map]
    constructor
    · intro hx
      rw [List.mem_map] at hx
      obtain ⟨p, hp, hpx⟩ := hx
      by_cases hpk : p.1 == k
      · left
        rw [← hpx]
        simp [Function.comp, hpk]
      · right
        rw [List.mem_map]
        refine ⟨p, hp, ?_⟩
        rw [← hpx]
        simp [Function.comp, hpk]
    · intro hx
      rw [List.mem_map]
      rcases hx with rfl | hx
      · exact ⟨q, hq, by simp [Function.comp, hqk]⟩
      · rw [List.mem_map] at hx
        obtain ⟨p, hp, rfl⟩ := hx
        by_cases hpk : p.1 == k
        · refine ⟨p, hp, ?_⟩
          simp only [Function.comp_apply, hpk, if_true]
          exact (beq_iff_eq.mp hpk).symm
        · exact ⟨p, hp, by simp [Function.comp, hpk]⟩
  · next hany =>
    simp only [List.map_append, List.mem_append, List.map_cons, List.map_nil,
      List.mem_singleton]
    tauto

/-- Keys accumulated by the export loop over one file's tags. -/
theorem mem_keys_foldl_dictSet (ts : List (String × PyVal)) :
    ∀ (init : List (String × PyVal)) (x : String),
      (x ∈ (ts.foldl (fun d kv => dictSet d kv.1 kv.2) init).map (fun p => p.1)) ↔
        x ∈ init.map (fun p => p.1) ∨ x ∈ ts.map (fun p => p.1) := by
  induction ts with
  | nil => intro init x; simp
  | cons kv ts ih =>
    intro init x
    rw [List.foldl_cons, ih, mem_keys_dictSet]
    simp only [List.map_cons, List.mem_cons]
    tauto

/-- The keys of one export entry: the tag keys plus `file`. -/
theorem mem_keys_mkEntry (f : String) (ts : List (String × PyVal)) (x : String) :
    x ∈ (mkEntry f ts).map (fun p => p.1) ↔ x = "file" ∨ x ∈ ts.map (fun p => p.1) := by
  unfold mkEntry
  rw [mem_keys_foldl_dictSet]
  simp

/-- For a non-empty batch, the pooled entry keys are exactly `file` plus all
tag keys. -/
theorem mem_header_pool (records : List (String × List (String × PyVal)))
    (hne : records ≠ []) (a : String) :
    a ∈ (records.map (fun r => mkEntry r.1 r.2)).flatMap (fun e => e.map (fun p => p.1)) ↔
      a ∈ "file" :: records.flatMap (fun r => r.2.map (fun p => p.1)) := by
  rw [List.mem_flatMap, List.mem_cons, List.mem_flatMap]
  constructor
  · rintro ⟨e, he, ha⟩
    rw [List.mem_map] at he
    obtain ⟨r, hr, rfl⟩ := he
    rw [mem_keys_mkEntry] at ha
    rcases ha with rfl | ha
    · exact Or.inl rfl
    · exact Or.inr ⟨r, hr, ha⟩
  · rintro (rfl | ⟨r, hr, ha⟩)
    · obtain ⟨r, hr⟩ := List.exists_mem_of_ne_nil records hne
      refine ⟨mkEntry r.1 r.2, List.mem_map_of_mem _ hr, ?_⟩
      rw [mem_keys_mkEntry]
      exact Or.inl rfl
    · refine ⟨mkEntry r.1 r.2, List.mem_map_of_mem _ hr, ?_⟩
      rw [mem_keys_mkEntry]
      exact Or.inr ha

/-- For a non-empty batch the computed header is the specified one. -/
theorem csvHeader_eq_specHeader (records : List (String × List (String × PyVal)))
    (hne : records ≠ []) :
    csvHeaderOf (records.map (fun r => mkEntry r.1 r.2)) = specHeader records := by
  unfold csvHeaderOf specHeader
  refine List.eq_of_perm_of_sorted ?_ (List.sorted_insertionSort _ _)
    (List.sorted_insertionSort _ _)
  refine (List.perm_insertionSort _ _).trans
    (List.Perm.trans ?_ (List.perm_insertionSort _ _).symm)
  rw [List.perm_ext_iff_of_nodup (List.nodup_dedup _) (List.nodup_dedup _)]
  intro a
  rw [List.mem_dedup, List.mem_dedup]
  exact mem_header_pool records hne a

/-- One row of `csv.DictWriter` over a covering header: always written, one
cell per header column. -/
theorem csvRow_complete (header : List String) (e : List (String × PyVal))
    (hsub : ∀ k ∈ e.map (fun p => p.1), k ∈ header) :
    ∃ r, csvRow header e = some r ∧ r.length = header.length := by
  unfold csvRow
  rw [if_pos]
  · exact ⟨_, rfl, by simp⟩
  · rw [List.all_eq_true]
    intro p hp
    have hm := hsub p.1 (List.mem_map_of_mem _ hp)
    simpa using hm

/-- Writing all rows over a covering header: every row written, every row as
wide as the header. -/
theorem csvRows_complete (header : List String) :
    ∀ (ms : List (List (String × PyVal))),
      (∀ e ∈ ms, ∀ k ∈ e.map (fun p => p.1), k ∈ header) →
      ∃ rows, csvRows header ms = some rows ∧ rows.length = ms.length ∧
        ∀ r ∈ rows, r.length = header.length := by
  intro ms
  induction ms with
  | nil => intro h; exact ⟨[], rfl, rfl, by simp⟩
  | cons e es ih =>
    intro h
    obtain ⟨r, hr, hrlen⟩ := csvRow_complete header e (h e (by simp))
    obtain ⟨rows, hrows, hlen, hall⟩ := ih (fun e2 he2 => h e2 (by simp [he2]))
    refine ⟨r :: rows, ?_, by simp [hlen], ?_⟩
    · unfold csvRows
      rw [hr, hrows]
    · intro r2 hr2
      rcases List.mem_cons.mp hr2 with rfl | hr2
      · exact hrlen
      · exact hall r2 hr2

/-- C5 (amended): for every *non-empty* batch, the CSV header equals the
lexicographically sorted union of all tag keys plus the literal `file` key,
and every record's row is written with one value (possibly empty) for every
header column.  (For the empty batch the code writes an empty header with no
`file` column - `export_header_empty_counterexample`.) -/
theorem export_header_sorted_union (records : List (String × List (String × PyVal)))
    (hne : records ≠ []) :
    ∃ rows, export_music_metadata_csv records = some (specHeader records, rows) ∧
      rows.length = records.length ∧
      ∀ r ∈ rows, r.length = (specHeader records).length := by
  have hcover : ∀ e ∈ records.map (fun r => mkEntry r.1 r.2),
      ∀ k ∈ e.map (fun p => p.1),
      k ∈ csvHeaderOf (records.map (fun r => mkEntry r.1 r.2)) := by
    intro e he k hk
    unfold csvHeaderOf
    rw [(List.perm_insertionSort _ _).mem_iff, List.mem_dedup, List.mem_flatMap]
    exact ⟨e, he, hk⟩
  obtain ⟨rows, hrows, hlen, hall⟩ :=
    csvRows_complete (csvHeaderOf (records.map (fun r => mkEntry r.1 r.2)))
      (records.map (fun r => mkEntry r.1 r.2)) hcover
  refine ⟨rows, ?_, by simpa using hlen, ?_⟩
  · unfold export_music_metadata_csv
    dsimp only
    rw [hrows, csvHeader_eq_specHeader records hne]
  · intro r hr
    rw [← csvHeader_eq_specHeader records hne]
    exact hall r hr

/-- Witness for `export_header_sorted_union`: a one-record batch. -/
theorem export_header_sorted_union_witness :
    ∃ rows,
      export_music_metadata_csv [("x.mp3", [("artist", PyVal.str "A")])] =
        some (specHeader [("x.mp3", [("artist", PyVal.str "A")])], rows) ∧
      rows.length = 1 ∧
      ∀ r ∈ rows,
        r.length = (specHeader [("x.mp3", [("artist", PyVal.str "A")])]).length :=
  export_header_sorted_union [("x.mp3", [("artist", PyVal.str "A")])] (by simp)

/-- C6 counterexample: the walk starts *at* the configured root, so the root
directory is yielded even when its own name is listed in `ignore_folders` -
the in-place pruning applies only to subdirectories. -/
theorem walker_root_ignored_counterexample :
    walkTree ["root"] (.node "root" [] [("a.mp4", 0)]) = [(["root"], ["a.mp4"])] ∧
    "root" ∈ (["root"] : List String) := by
  constructor
  · simp [walkTree, walkSubs]
  · simp

/-- Inversion for `walkSubs`: an entry comes from a non-ignored subtree. -/
theorem mem_walkSubs (ig : List String) (n : String) :
    ∀ (subs : List FSTree) (e : List String × List String), e ∈ walkSubs ig n subs →
      ∃ c ∈ subs, ig.contains c.name = false ∧
        ∃ e0 ∈ walkTree ig c, e = (n :: e0.1, e0.2) := by
  intro subs
  induction subs with
  | nil => intro e h; simp [walkSubs] at h
  | cons c cs ih =>
    intro e h
    rw [walkSubs, List.mem_append] at h
    rcases h with h | h
    · by_cases hc : ig.contains c.name
      · rw [if_pos hc] at h
        simp at h
      · rw [if_neg hc] at h
        rw [List.mem_map] at h
        obtain ⟨e0, he0, rfl⟩ := h
        exact ⟨c, by simp, by simpa using hc, e0, he0, rfl⟩
    · obtain ⟨c2, hc2, hrest⟩ := ih e h
      exact ⟨c2, by simp [hc2], hrest⟩

/-- C6 (amended): every entry the walk yields has the root's own name as its
first path component, and *no later component* is an ignored name - so a
non-root directory named in `ignore_folders` is never yielded, and nothing
below one is ever visited (pruning happens before descent).  The root itself
is the one exception: it is yielded even if its own name is ignored
(`walker_root_ignored_counterexample`). -/
theorem walker_ignored_pruned (ig : List String) (t : FSTree)
    (e : List String × List String) (he : e ∈ walkTree ig t) :
    e.1.head? = some t.name ∧ ∀ x ∈ e.1.drop 1, ig.contains x = false := by
  suffices h : ∀ (N : Nat) (t : FSTree), sizeOf t ≤ N →
      ∀ e ∈ walkTree ig t,
        e.1.head? = some t.name ∧ ∀ x ∈ e.1.drop 1, ig.contains x = false from
    h (sizeOf t) t le_rfl e he
  intro N
  induction N with
  | zero =>
    intro t ht
    cases t with
    | node n subs fs => simp [FSTree.node.sizeOf_spec] at ht
  | succ N ih =>
    intro t ht e he
    cases t with
    | node n subs fs =>
      rw [walkTree] at he
      rcases List.mem_cons.mp he with rfl | he2
      · exact ⟨rfl, by simp⟩
      · obtain ⟨c, hc, hcig, e0, he0, rfl⟩ := mem_walkSubs ig n subs e he2
        have hsz : sizeOf c ≤ N := by
          have h1 := List.sizeOf_lt_of_mem hc
          rw [FSTree.node.sizeOf_spec] at ht
          omega
        obtain ⟨hhead, htail⟩ := ih c hsz e0 he0
        refine ⟨rfl, ?_⟩
        intro x hx
        rw [List.drop_one, List.tail_cons] at hx
        cases h01 : e0.1 with
        | nil => rw [h01] at hx; simp at hx
        | cons e0h e0t =>
          rw [h01] at hx hhead
          rw [List.head?_cons, Option.some.injEq] at hhead
          rcases List.mem_cons.mp hx with rfl | hx2
          · rw [hhead]; exact hcig
          · refine htail x ?_
            rw [h01, List.drop_one, List.tail_cons]
            exact hx2

/-- Witness for `walker_ignored_pruned` on a concrete tree with an ignored
sibling. -/
theorem walker_ignored_pruned_witness :
    ((["R", "keep"], ([] : List String)) : List String × List String).1.head? =
        some (FSTree.node "R" [.node "skipme" [] [], .node "keep" [] []] []).name ∧
      ∀ x ∈ ((["R", "keep"] : List String)).drop 1,
        (["skipme"] : List String).contains x = false := by
  exact walker_ignored_pruned ["skipme"]
    (.node "R" [.node "skipme" [] [], .node "keep" [] []] [])
    (["R", "keep"], [])
    (by simp [walkTree, walkSubs, FSTree.name])
